import Mathlib

/-!
Shallow embedding of `src/mesh_simple.py` (class `SimpleMeshtasticBYOS`).

Python dicts are modelled as insertion-ordered association lists, Python's
`collections.deque(maxlen=n)` as a list capped at `n` (oldest first), and
`collections.defaultdict(int)` as an association list with default value 0.
Epoch timestamps are modelled as `Int` seconds; the model assumes the
non-negative epochs of deployment (for negative inputs Python's
`datetime.fromtimestamp` is timezone/era dependent).  SNR values are modelled
as integers; Python's `round(x, 1)` is the identity on integers.
-/

namespace MeshSimple

/-- Insertion-ordered dict update: overwriting an existing key keeps its
position, a new key is appended at the end (CPython dict semantics). -/
def dictInsert {κ α : Type} [DecidableEq κ] (k : κ) (v : α) :
    List (κ × α) → List (κ × α)
  | [] => [(k, v)]
  | (k', v') :: rest =>
      if k' = k then (k, v) :: rest else (k', v') :: dictInsert k v rest

/-- Dict lookup (`d.get(k)` returning `None` when absent). -/
def dictGet {κ α : Type} [DecidableEq κ] (k : κ) : List (κ × α) → Option α
  | [] => none
  | (k', v') :: rest => if k' = k then some v' else dictGet k rest

/-- `defaultdict(int)` increment: `d[k] += 1`. -/
def bump {κ : Type} [DecidableEq κ] (k : κ) : List (κ × Nat) → List (κ × Nat)
  | [] => [(k, 1)]
  | (k', v) :: rest =>
      if k' = k then (k', v + 1) :: rest else (k', v) :: bump k rest

/-- `defaultdict(int)` read: 0 when the key is absent. -/
def statGet {κ : Type} [DecidableEq κ] (k : κ) (d : List (κ × Nat)) : Nat :=
  (dictGet k d).getD 0

/-- Configuration constant `MAX_RECENT_MESSAGES` (mesh_simple.py line 29). -/
def MAX_RECENT_MESSAGES : Nat := 10

/-- Configuration constant `MAX_RECONNECT_ATTEMPTS` (line 30). -/
def MAX_RECONNECT_ATTEMPTS : Nat := 5

/-- Configuration constant `ONLINE_THRESHOLD_MINUTES` (line 31). -/
def ONLINE_THRESHOLD_MINUTES : Int := 30

/-- Whitespace recognized by Python's `str.strip`. -/
def pySpace (c : Char) : Bool :=
  c = ' ' ∨ c = '\t' ∨ c = '\n' ∨ c = '\r' ∨ c = '\x0b' ∨ c = '\x0c'

/-- Python `str.strip()`: remove leading and trailing whitespace. -/
def strip (s : String) : String :=
  String.mk (((s.data.dropWhile pySpace).reverse.dropWhile pySpace).reverse)

/-- Two-digit zero padding used by `strftime`. -/
def pad2 (n : Nat) : String := if n < 10 then "0" ++ toString n else toString n

/-- `datetime.fromtimestamp(t).strftime(time pattern HH:MM)` for a
non-negative epoch second `t` (UTC). -/
def hhmm (t : Int) : String :=
  pad2 ((t.toNat / 3600) % 24) ++ ":" ++ pad2 ((t.toNat % 3600) / 60)

/-- `strftime` pattern HH:MM:SS for `network_stats.last_update`. -/
def hhmmss (t : Int) : String := hhmm t ++ ":" ++ pad2 (t.toNat % 60)

/-! ## Node registry (`on_node_updated`, lines 148-165) -/

/-- Payload of a `meshtastic.node.updated` event: the dict fields the handler
reads. `none` models an absent key; `position`/`deviceMetrics` are copied
without inspection, so they are carried as opaque optional blobs. -/
structure NodeEvent where
  num : Option Nat
  longName : Option String
  shortName : Option String
  lastHeard : Option Int
  snr : Option Int
  position : Option String
  deviceMetrics : Option String
deriving Repr, DecidableEq

/-- Entry stored in `self.nodes[node_id]` (lines 154-162). -/
structure NodeProfile where
  id : Nat
  longName : String
  shortName : String
  lastHeard : Int
  snr : Int
  position : Option String
  telemetry : Option String
deriving Repr, DecidableEq

/-- Fields written by `on_node_updated` for id `n`: each `get` with its
Python default (lines 154-162). -/
def parse_node (n : Nat) (e : NodeEvent) : NodeProfile where
  id := n
  longName := e.longName.getD "Unknown"
  shortName := e.shortName.getD "UNK"
  lastHeard := e.lastHeard.getD 0
  snr := e.snr.getD 0
  position := e.position
  telemetry := e.deviceMetrics

/-- Handler `on_node_updated`: `node_id = node.get(num key, 0)`; a zero
(hence also missing) id is falsy and the registry is untouched, otherwise the
entry is overwritten wholesale (lines 151-162). -/
def on_node_updated (nodes : List (Nat × NodeProfile)) (e : NodeEvent) :
    List (Nat × NodeProfile) :=
  let node_id := e.num.getD 0
  if node_id = 0 then nodes else dictInsert node_id (parse_node node_id e) nodes

/-- Folding a sequence of node-updated events over a registry. -/
def process_node_events (nodes : List (Nat × NodeProfile))
    (events : List NodeEvent) : List (Nat × NodeProfile) :=
  events.foldl on_node_updated nodes

/-- Most recently processed event of the sequence carrying id `n`
(used only to state properties, not part of the embedding). -/
def last_match (n : Nat) : List NodeEvent → Option NodeEvent
  | [] => none
  | e :: es =>
      match last_match n es with
      | some e' => some e'
      | none => if e.num = some n then some e else none

/-! ## Packet events and the message history (`on_receive`, lines 106-146) -/

/-- A payload attribute that may be absent (`hasattr` false) or present with a
value that may itself be `None` or a string. -/
inductive TextField where
  | absent : TextField
  | present : Option String → TextField
deriving Repr, DecidableEq

/-- Payload of a `meshtastic.receive` event: the fields `on_receive` reads.
`text` covers both the attribute shape and the dict shape (lines 113-116,
mutually exclusive for one Python object); `dataText` is the nested
`decoded.data.text` shape (lines 117-118). -/
structure Packet where
  text : TextField
  dataText : TextField
  fromId : Option String
  fromNum : Option Nat
  channel : Option Nat
  rxTime : Option Int
  time : Option Int
deriving Repr, DecidableEq

/-- Text extraction chain of lines 110-118: the first present shape wins,
even when its value is `None`. -/
def extract_text (p : Packet) : Option String :=
  match p.text with
  | .present v => v
  | .absent =>
      match p.dataText with
      | .present v => v
      | .absent => none

/-- Guard of line 120, `message_text and message_text.strip()`: the message is
retained only when some text was extracted and it is non-empty after strip. -/
def retained_text (p : Packet) : Option String :=
  match extract_text p with
  | none => none
  | some s => if strip s = "" then none else some s

/-- Entry of `self.recent_messages` (lines 130-137).  The `timestamp` field
holds the raw epoch second; Python stores `datetime.isoformat()` of it, an
injective rendering of the same value. -/
structure Message where
  text : String
  from_name : String
  from_id : String
  channel : Nat
  time : String
  timestamp : Int
deriving Repr, DecidableEq

/-- Sender identity string, line 121:
`str(packet.get(fromId key, packet.get(from key, Unknown)))`. -/
def sender_key (p : Packet) : String :=
  match p.fromId with
  | some s => s
  | none =>
      match p.fromNum with
      | some n => toString n
      | none => "Unknown"

/-- `deque(maxlen=cap).append`: when full, the oldest (leftmost) entry is
evicted (line 53 with line 139). -/
def dequeAppend {α : Type} (cap : Nat) (xs : List α) (x : α) : List α :=
  let ys := xs ++ [x]
  if cap < ys.length then ys.drop (ys.length - cap) else ys

/-- Entry of `self.channels[i]` (lines 196-201 and 207-212). -/
structure Channel where
  index : Nat
  name : String
  psk : Bool
  role : String
deriving Repr, DecidableEq

/-- Full mutable state of a `SimpleMeshtasticBYOS` instance (lines 52-56). -/
structure MeshState where
  recent_messages : List Message
  nodes : List (Nat × NodeProfile)
  channels : List (Nat × Channel)
  message_stats : List (String × Nat)
deriving Repr, DecidableEq

/-- The message record built by lines 121-137 when the packet is retained:
`now` models the `time.time()` fallback of line 123. -/
def mk_message (nodes : List (Nat × NodeProfile)) (now : Int) (p : Packet)
    (text : String) : Message :=
  let from_id := sender_key p
  let rx_time := (p.rxTime.getD (p.time.getD now))
  let from_num := p.fromNum.getD 0
  let display_name := ((dictGet from_num nodes).map (·.shortName)).getD from_id
  { text := text
    from_name := display_name
    from_id := from_id
    channel := p.channel.getD 0
    time := hhmm rx_time
    timestamp := rx_time }

/-- Handler `on_receive` (lines 106-146): a packet without retained text is a
no-op; otherwise the message is appended to the bounded history and the
per-sender and total counters are incremented (lines 139-141). -/
def on_receive (now : Int) (st : MeshState) (p : Packet) : MeshState :=
  match retained_text p with
  | none => st
  | some text =>
      { st with
        recent_messages :=
          dequeAppend MAX_RECENT_MESSAGES st.recent_messages
            (mk_message st.nodes now p text)
        message_stats :=
          bump "total" (bump (sender_key p) st.message_stats) }

/-- Initial state set up by `__init__` (lines 52-56): empty deque, empty
dicts, empty counters. -/
def initialState : MeshState where
  recent_messages := []
  nodes := []
  channels := []
  message_stats := []

/-- Folding a sequence of packet-received events (each tagged with the wall
clock at arrival) over a state. -/
def process_packets (st : MeshState) (events : List (Int × Packet)) :
    MeshState :=
  events.foldl (fun s e => on_receive e.1 s e.2) st

/-! ## Channel refresh (`update_channel_data`, lines 180-218) -/

/-- Channel settings object as seen through `getattr` (lines 194-199):
`name` absent means the `f-string` default is used, `pskLen` is the length of
the psk bytes (default empty). -/
structure ChannelSettings where
  name : Option String
  pskLen : Nat
deriving Repr, DecidableEq

/-- One channel reported by `getMyNodeInfo().channels`: `settings` absent
models `hasattr(channel, settings key)` false (line 193). -/
structure ChannelReport where
  settings : Option ChannelSettings
  role : Option String
deriving Repr, DecidableEq

/-- The entry recorded for the `i`-th reported channel, or `none` when it is
skipped (no settings, or blank name) — lines 192-202. -/
def kept_channel (i : Nat) (c : ChannelReport) : Option Channel :=
  match c.settings with
  | none => none
  | some s =>
      let name := s.name.getD ("Channel " ++ toString i)
      if name = "" ∨ strip name = "" then none
      else some
        { index := i
          name := name
          psk := 0 < s.pskLen
          role := c.role.getD "secondary" }

/-- The `(index, entry)` pairs the `for i, channel in enumerate(channels)`
loop records, starting at index `i`. -/
def collect_channels_from (i : Nat) : List ChannelReport → List (Nat × Channel)
  | [] => []
  | c :: cs =>
      match kept_channel i c with
      | some ch => (i, ch) :: collect_channels_from (i + 1) cs
      | none => collect_channels_from (i + 1) cs

/-- All `(index, entry)` pairs the refresh records, in enumeration order. -/
def collect_channels (report : Option (List ChannelReport)) :
    List (Nat × Channel) :=
  match report with
  | none => []
  | some rs => collect_channels_from 0 rs

/-- The synthetic default channel of lines 207-212. -/
def defaultChannel : Channel where
  index := 0
  name := "Default"
  psk := true
  role := "primary"

/-- `update_channel_data` (lines 180-218), for a live interface.  `report` is
`none` when `getMyNodeInfo` raised, returned nothing, or the result has no
`channels` attribute; in every such case zero channels are found and the
default is substituted.  Note the code writes into the existing dict and
never clears it first. -/
def update_channel_data (report : Option (List ChannelReport))
    (channels : List (Nat × Channel)) : List (Nat × Channel) :=
  let collected := collect_channels report
  let merged := collected.foldl (fun acc ic => dictInsert ic.1 ic.2 acc) channels
  if collected.isEmpty then dictInsert 0 defaultChannel merged else merged

/-! ## Online classifier (`get_online_nodes`, lines 220-239) -/

/-- Display record appended at lines 230-236. -/
structure OnlineRec where
  name : String
  longName : String
  lastHeard : String
  snr : Int
  id : Nat
deriving Repr, DecidableEq

/-- Projection of a registry entry to its display record (lines 229-236).
`round(snr, 1)` is the identity on the integer SNR model. -/
def online_rec (node_id : Nat) (node : NodeProfile) : OnlineRec where
  name := node.shortName
  longName := node.longName
  lastHeard := hhmm node.lastHeard
  snr := node.snr
  id := node_id

/-- Python string comparison on code-point sequences (lexicographic). -/
def charListLt : List Char → List Char → Bool
  | [], [] => false
  | [], _ :: _ => true
  | _ :: _, [] => false
  | c :: cs, d :: ds => if c < d then true else if d < c then false else charListLt cs ds

/-- Python's `<` on strings. -/
def pyStrLt (a b : String) : Bool := charListLt a.data b.data

/-- Stable descending insertion by the formatted `lastHeard` string: the new
element is placed before the first strictly smaller key.  An insertion sort
that is stable for the same total preorder produces the same output as
Python's stable `list.sort(key=..., reverse=True)`. -/
def insertDesc (x : OnlineRec) : List OnlineRec → List OnlineRec
  | [] => [x]
  | y :: ys =>
      if pyStrLt y.lastHeard x.lastHeard then x :: y :: ys
      else y :: insertDesc x ys

/-- Stable sort, descending by the formatted `lastHeard` string (line 238:
`online_nodes.sort(key on the formatted lastHeard field, reverse=True)`). -/
def sortDesc (xs : List OnlineRec) : List OnlineRec :=
  xs.foldl (fun acc x => insertDesc x acc) []

/-- `get_online_nodes` (lines 220-239): keep the nodes whose raw last-heard
epoch is strictly greater than `now` minus the 30-minute threshold, project
them, and sort descending by the formatted time string. -/
def get_online_nodes (nodes : List (Nat × NodeProfile)) (now : Int) :
    List OnlineRec :=
  let threshold_timestamp := now - ONLINE_THRESHOLD_MINUTES * 60
  sortDesc <| nodes.filterMap fun kp =>
    if threshold_timestamp < kp.2.lastHeard then some (online_rec kp.1 kp.2)
    else none

/-! ## Snapshot building (lines 241-289) -/

/-- The two fields of `get_message_summary` (lines 241-253) that
`prepare_display_data` consumes (the code also computes an `active_users`
count, unused by the snapshot since line 278 is commented out). -/
structure MessageSummary where
  total : Nat
  recent : List Message
deriving Repr, DecidableEq

/-- `get_message_summary` (lines 241-253): with an empty history the summary
is zero/empty regardless of the counters; otherwise the history is reversed
(newest first) and capped at 10, and `total` is the stored total counter. -/
def get_message_summary (st : MeshState) : MessageSummary :=
  if st.recent_messages.isEmpty then { total := 0, recent := [] }
  else
    { total := statGet "total" st.message_stats
      recent := st.recent_messages.reverse.take 10 }

/-- `network_stats` dict of `get_network_stats` (lines 255-264). -/
structure NetworkStats where
  total_nodes : Nat
  online_nodes : Nat
  channels : Nat
  last_update : String
deriving Repr, DecidableEq

/-- `get_network_stats` (lines 255-264): dict sizes and the untruncated
online count. -/
def get_network_stats (st : MeshState) (now : Int) : NetworkStats where
  total_nodes := st.nodes.length
  online_nodes := (get_online_nodes st.nodes now).length
  channels := st.channels.length
  last_update := hhmmss now

/-- The snapshot document of `prepare_display_data` (lines 266-289).
`timestamp` keeps the raw epoch second of the ISO timestamp; the static
`device_info` block is constant and omitted. -/
structure DisplayData where
  network_stats : NetworkStats
  online_nodes : List OnlineRec
  recent_messages : List Message
  message_stats_total : Nat
  channels : List Channel
  status : String
  timestamp : Int
deriving Repr, DecidableEq

/-- `prepare_display_data` (lines 266-289): truncates online nodes to 12,
recent messages to 10, channels (dict values in insertion order) to 6;
`status` reflects whether the interface handle is set. -/
def prepare_display_data (st : MeshState) (now : Int) (connected : Bool) :
    DisplayData where
  network_stats := get_network_stats st now
  online_nodes := (get_online_nodes st.nodes now).take 12
  recent_messages := (get_message_summary st).recent.take 10
  message_stats_total := (get_message_summary st).total
  channels := (st.channels.map (·.2)).take 6
  status := if connected then "connected" else "disconnected"
  timestamp := now

/-! ## Publishing (`send_to_byos`, lines 291-318) -/

/-- Outcome of the HTTP POST of lines 300-305: either a response with a
status code and body, or a raised exception (network error, timeout, ...). -/
inductive PostResult where
  | response : Nat → String → PostResult
  | failure : String → PostResult
deriving Repr, DecidableEq

/-- `send_to_byos` (lines 291-318): `True` exactly on status 200 or 201;
every other status and every exception is caught and yields `False`.  The
model is a total function into `Bool`, mirroring that the Python function
always returns a boolean and never propagates an exception. -/
def send_to_byos (r : PostResult) : Bool :=
  match r with
  | .response status _ => status = 200 ∨ status = 201
  | .failure _ => false

/-! ## Main loop reconnect logic (`run_update_loop`, lines 320-362) -/

/-- The loop state relevant to reconnection (lines 322-341):
`reconnect_attempts`, whether `self.interface` is set, and whether the loop
has hit the fatal `break` of line 338. -/
structure LoopState where
  reconnect_attempts : Nat
  connected : Bool
  fatal : Bool
deriving Repr, DecidableEq

/-- Loop state at entry of `run_update_loop` (line 323), with no interface. -/
def loopInit : LoopState where
  reconnect_attempts := 0
  connected := false
  fatal := false

/-- One pass of lines 331-341 driven by the outcome of `connect()`: a fatal
or connected loop makes no connect call (nothing in the loop body unsets
`self.interface`); success resets the counter and sets the handle; failure
increments the counter and breaks once it reaches the maximum of 5. -/
def loop_step (s : LoopState) (ok : Bool) : LoopState :=
  if s.fatal ∨ s.connected then s
  else if ok then { reconnect_attempts := 0, connected := true, fatal := false }
  else
    let a := s.reconnect_attempts + 1
    if MAX_RECONNECT_ATTEMPTS ≤ a then
      { reconnect_attempts := a, connected := false, fatal := true }
    else { reconnect_attempts := a, connected := false, fatal := false }

/-- Whether this pass performs a `connect()` call (line 332). -/
def connect_calls (s : LoopState) : Nat :=
  if s.fatal ∨ s.connected then 0 else 1

/-- Run the loop over a list of prospective `connect()` outcomes, returning
the final state and the number of `connect()` calls actually made. -/
def run_update_loop : LoopState → List Bool → LoopState × Nat
  | s, [] => (s, 0)
  | s, ok :: rest =>
      let r := run_update_loop (loop_step s ok) rest
      (r.1, connect_calls s + r.2)

/-! ## Dictionary lemmas -/

theorem dictGet_dictInsert_self {κ α : Type} [DecidableEq κ] (k : κ) (v : α)
    (d : List (κ × α)) : dictGet k (dictInsert k v d) = some v := by
  induction d with
  | nil => simp [dictInsert, dictGet]
  | cons kv rest ih =>
      obtain ⟨k', v'⟩ := kv
      by_cases h : k' = k <;> simp [dictInsert, dictGet, h, ih]

theorem dictGet_dictInsert_ne {κ α : Type} [DecidableEq κ] {j k : κ} (v : α)
    (d : List (κ × α)) (h : j ≠ k) :
    dictGet j (dictInsert k v d) = dictGet j d := by
  induction d with
  | nil => simp [dictInsert, dictGet, Ne.symm h]
  | cons kv rest ih =>
      obtain ⟨k', v'⟩ := kv
      by_cases hk : k' = k
      · subst hk
        simp [dictInsert, dictGet, Ne.symm h]
      · by_cases hj : k' = j
        · subst hj; simp [dictInsert, dictGet, hk, h]
        · simp [dictInsert, dictGet, hk, hj, ih]

theorem mem_keys_dictInsert {κ α : Type} [DecidableEq κ] {a k : κ} (v : α)
    (d : List (κ × α)) :
    a ∈ (dictInsert k v d).map Prod.fst ↔ a = k ∨ a ∈ d.map Prod.fst := by
  induction d with
  | nil => simp [dictInsert]
  | cons kv rest ih =>
      obtain ⟨k', v'⟩ := kv
      by_cases h : k' = k
      · subst h; simp [dictInsert]
      · simp [dictInsert, h, ih]; tauto

theorem keys_nodup_dictInsert {κ α : Type} [DecidableEq κ] (k : κ) (v : α)
    {d : List (κ × α)} (hd : (d.map Prod.fst).Nodup) :
    ((dictInsert k v d).map Prod.fst).Nodup := by
  induction d with
  | nil => simp [dictInsert]
  | cons kv rest ih =>
      obtain ⟨k', v'⟩ := kv
      simp only [List.map_cons, List.nodup_cons] at hd
      by_cases h : k' = k
      · subst h; simpa [dictInsert] using hd
      · have hstep : dictInsert k v ((k', v') :: rest) = (k', v') :: dictInsert k v rest := by
          simp [dictInsert, h]
        rw [hstep]
        simp only [List.map_cons, List.nodup_cons]
        refine ⟨?_, ih hd.2⟩
        rw [mem_keys_dictInsert]
        rintro (rfl | hm)
        · exact h rfl
        · exact hd.1 hm

/-! ## Claim C1: node registry reflects the last update per non-zero id -/

theorem dictGet_process_node_events (es : List NodeEvent)
    (nodes : List (Nat × NodeProfile)) (n : Nat) (hn : n ≠ 0) :
    dictGet n (process_node_events nodes es) =
      match last_match n es with
      | some e => some (parse_node n e)
      | none => dictGet n nodes := by
  induction es generalizing nodes with
  | nil => simp [process_node_events, last_match]
  | cons e es ih =>
      have hfold : process_node_events nodes (e :: es) =
          process_node_events (on_node_updated nodes e) es := rfl
      rw [hfold, ih]
      cases hlm : last_match n es with
      | some e' => simp [last_match, hlm]
      | none =>
          simp only [last_match, hlm]
          by_cases he : e.num = some n
          · simp [he, on_node_updated, hn, dictGet_dictInsert_self]
          · have hget : dictGet n (on_node_updated nodes e) = dictGet n nodes := by
              cases hnum : e.num with
              | none => simp [on_node_updated, hnum]
              | some m =>
                  by_cases hm : m = 0
                  · simp [on_node_updated, hnum, hm]
                  · have hne : n ≠ m := fun hnm => he (by rw [hnum, hnm])
                    simp [on_node_updated, hnum, hm,
                      dictGet_dictInsert_ne _ _ hne]
            rw [if_neg he]
            exact hget

theorem keys_nodup_on_node_updated (nodes : List (Nat × NodeProfile))
    (e : NodeEvent) (h : (nodes.map Prod.fst).Nodup) :
    ((on_node_updated nodes e).map Prod.fst).Nodup := by
  unfold on_node_updated
  by_cases h0 : e.num.getD 0 = 0
  · simp [h0, h]
  · simp [h0, keys_nodup_dictInsert _ _ h]

theorem keys_nodup_process_node_events (es : List NodeEvent)
    (nodes : List (Nat × NodeProfile)) (h : (nodes.map Prod.fst).Nodup) :
    ((process_node_events nodes es).map Prod.fst).Nodup := by
  induction es generalizing nodes with
  | nil => exact h
  | cons e es ih => exact ih _ (keys_nodup_on_node_updated _ _ h)

/-- C1: starting from the empty registry, any sequence of node-updated events
leaves exactly one entry per distinct non-zero id, whose profile is the parse
of the most recently processed event for that id; events with a zero or
missing numeric id leave the registry unchanged. -/
theorem node_registry_reflects_last_update (events : List NodeEvent) :
    ((process_node_events [] events).map Prod.fst).Nodup ∧
    (∀ n : Nat, n ≠ 0 →
      dictGet n (process_node_events [] events) =
        (last_match n events).map (parse_node n)) ∧
    (∀ (nodes : List (Nat × NodeProfile)) (e : NodeEvent),
      e.num = none ∨ e.num = some 0 → on_node_updated nodes e = nodes) := by
  refine ⟨keys_nodup_process_node_events events [] (by simp), ?_, ?_⟩
  · intro n hn
    rw [dictGet_process_node_events events [] n hn]
    cases last_match n events <;> simp [dictGet]
  · intro nodes e h
    rcases h with h | h <;> simp [on_node_updated, h]

/-- Witness for C1 at a one-event sequence and at a zero-id event. -/
theorem node_registry_reflects_last_update_witness :
    dictGet 7 (process_node_events []
        [⟨some 7, some "Alpha", some "AL", some 100, some 3, none, none⟩]) =
      some (parse_node 7 ⟨some 7, some "Alpha", some "AL", some 100, some 3, none, none⟩) ∧
    on_node_updated [] ⟨some 0, some "Z", none, none, none, none, none⟩ = [] := by
  constructor
  · have h := (node_registry_reflects_last_update
      [⟨some 7, some "Alpha", some "AL", some 100, some 3, none, none⟩]).2.1 7 (by decide)
    simpa [last_match] using h
  · exact (node_registry_reflects_last_update []).2.2 _ _ (Or.inr rfl)

/-! ## Claim C2: the message history is a 10-bounded FIFO -/

theorem take_append_take {α : Type} (n : Nat) (as bs : List α) :
    (as ++ bs.take n).take n = (as ++ bs).take n := by
  rw [List.take_append_eq_append_take, List.take_append_eq_append_take,
    List.take_take]
  congr 2
  exact Nat.min_eq_left (Nat.sub_le n as.length)

theorem rtake_append_rtake {α : Type} (n : Nat) (xs ys : List α) :
    ((xs.rtake n) ++ ys).rtake n = (xs ++ ys).rtake n := by
  simp only [List.rtake_eq_reverse_take_reverse, List.reverse_append,
    List.reverse_reverse]
  rw [take_append_take]

theorem length_rtake_le {α : Type} (n : Nat) (xs : List α) :
    (xs.rtake n).length ≤ n := by
  rw [List.rtake_eq_reverse_take_reverse]
  simp [Nat.min_le_left]

theorem dequeAppend_eq_rtake {α : Type} (cap : Nat) (xs : List α) (x : α) :
    dequeAppend cap xs x = (xs ++ [x]).rtake cap := by
  show (if cap < (xs ++ [x]).length then
      (xs ++ [x]).drop ((xs ++ [x]).length - cap) else xs ++ [x]) =
    (xs ++ [x]).drop ((xs ++ [x]).length - cap)
  by_cases h : cap < (xs ++ [x]).length
  · rw [if_pos h]
  · rw [if_neg h, Nat.sub_eq_zero_of_le (Nat.le_of_not_lt h), List.drop_zero]

/-- The message that a packet-received event contributes, when retained. -/
def packet_message (nodes : List (Nat × NodeProfile)) (e : Int × Packet) :
    Option Message :=
  (retained_text e.2).map (mk_message nodes e.1 e.2)

theorem on_receive_nodes (now : Int) (st : MeshState) (p : Packet) :
    (on_receive now st p).nodes = st.nodes := by
  unfold on_receive
  cases retained_text p <;> rfl

theorem on_receive_channels (now : Int) (st : MeshState) (p : Packet) :
    (on_receive now st p).channels = st.channels := by
  unfold on_receive
  cases retained_text p <;> rfl

theorem recent_messages_fold (events : List (Int × Packet)) :
    ∀ st : MeshState, st.recent_messages.length ≤ MAX_RECENT_MESSAGES →
      (process_packets st events).recent_messages =
        (st.recent_messages ++
          events.filterMap (packet_message st.nodes)).rtake MAX_RECENT_MESSAGES := by
  induction events with
  | nil =>
      intro st h
      simp only [process_packets, List.foldl_nil, List.filterMap_nil,
        List.append_nil, List.rtake]
      rw [Nat.sub_eq_zero_of_le h, List.drop_zero]
  | cons e es ih =>
      intro st h
      have hfold : process_packets st (e :: es) =
          process_packets (on_receive e.1 st e.2) es := rfl
      rw [hfold]
      cases hr : retained_text e.2 with
      | none =>
          have hnoop : on_receive e.1 st e.2 = st := by
            unfold on_receive; rw [hr]
          rw [hnoop, ih st h]
          simp [packet_message, hr]
      | some t =>
          have hst : on_receive e.1 st e.2 =
              { st with
                recent_messages :=
                  dequeAppend MAX_RECENT_MESSAGES st.recent_messages
                    (mk_message st.nodes e.1 e.2 t)
                message_stats :=
                  bump "total" (bump (sender_key e.2) st.message_stats) } := by
            unfold on_receive; rw [hr]
          rw [hst, ih]
          · have hfm : List.filterMap (packet_message st.nodes) (e :: es) =
                mk_message st.nodes e.1 e.2 t ::
                  List.filterMap (packet_message st.nodes) es := by
              simp [packet_message, hr]
            rw [hfm, dequeAppend_eq_rtake, rtake_append_rtake,
              List.append_assoc, List.singleton_append]
          · simp only [dequeAppend_eq_rtake]
            exact length_rtake_le _ _

/-- C2: starting from the initial state, after any sequence of
packet-received events the history holds exactly the suffix of the retained
messages capped at `MAX_RECENT_MESSAGES = 10` (oldest evicted first), and in
particular never more than 10 entries. -/
theorem message_history_bounded_fifo (events : List (Int × Packet)) :
    (process_packets initialState events).recent_messages =
      (events.filterMap (packet_message [])).rtake MAX_RECENT_MESSAGES ∧
    (process_packets initialState events).recent_messages.length ≤
      MAX_RECENT_MESSAGES := by
  have h := recent_messages_fold events initialState (by simp [initialState])
  simp only [initialState, List.nil_append] at h
  exact ⟨h, h ▸ length_rtake_le _ _⟩

/-! ## Claim C3: packets without retained text change nothing -/

/-- C3: a packet-received event from which no non-empty (after strip) text
can be extracted through any of the payload shapes leaves the entire state —
in particular the message history and the message statistics — unchanged. -/
theorem no_text_packet_noop (now : Int) (st : MeshState) (p : Packet) :
    (retained_text p = none ↔
      extract_text p = none ∨ ∃ s, extract_text p = some s ∧ strip s = "") ∧
    (retained_text p = none → on_receive now st p = st) := by
  constructor
  · unfold retained_text
    cases hx : extract_text p with
    | none => simp
    | some s =>
        by_cases hs : strip s = "" <;> simp [hs]
  · intro h
    unfold on_receive
    rw [h]

/-- Witness for C3: an all-whitespace direct text field is a no-op. -/
theorem no_text_packet_noop_witness :
    on_receive 0 initialState
      ⟨.present (some "  "), .absent, none, none, none, none, none⟩ =
      initialState :=
  (no_text_packet_noop 0 initialState _).2 (by decide)

/-! ## Claims C4 and C5: online classifier membership and ordering -/

theorem mem_insertDesc (a x : OnlineRec) (l : List OnlineRec) :
    a ∈ insertDesc x l ↔ a = x ∨ a ∈ l := by
  induction l with
  | nil => simp [insertDesc]
  | cons y ys ih =>
      by_cases h : pyStrLt y.lastHeard x.lastHeard
      · simp [insertDesc, h]
      · simp [insertDesc, h, ih]
        tauto

theorem mem_sortDesc_fold (xs : List OnlineRec) :
    ∀ (acc : List OnlineRec) (a : OnlineRec),
      a ∈ xs.foldl (fun acc x => insertDesc x acc) acc ↔ a ∈ acc ∨ a ∈ xs := by
  induction xs with
  | nil => simp
  | cons x xs ih =>
      intro acc a
      rw [List.foldl_cons, ih, mem_insertDesc]
      simp
      tauto

theorem mem_sortDesc (a : OnlineRec) (xs : List OnlineRec) :
    a ∈ sortDesc xs ↔ a ∈ xs := by
  unfold sortDesc
  rw [mem_sortDesc_fold]
  simp

/-- C4: a display record is in the classifier output exactly when it is the
projection of a registry entry whose raw last-heard epoch is strictly greater
than `now` minus the 30-minute threshold; an entry exactly at the boundary
`now - 1800` is excluded. -/
theorem online_classifier_strict_threshold (nodes : List (Nat × NodeProfile))
    (now : Int) (r : OnlineRec) :
    r ∈ get_online_nodes nodes now ↔
      ∃ kp ∈ nodes,
        now - ONLINE_THRESHOLD_MINUTES * 60 < kp.2.lastHeard ∧
        r = online_rec kp.1 kp.2 := by
  have hun : get_online_nodes nodes now =
      sortDesc (nodes.filterMap fun kp =>
        if now - ONLINE_THRESHOLD_MINUTES * 60 < kp.2.lastHeard then
          some (online_rec kp.1 kp.2)
        else none) := rfl
  rw [hun, mem_sortDesc, List.mem_filterMap]
  constructor
  · rintro ⟨kp, hmem, hf⟩
    by_cases hth : now - ONLINE_THRESHOLD_MINUTES * 60 < kp.2.lastHeard
    · rw [if_pos hth] at hf
      exact ⟨kp, hmem, hth, (Option.some.inj hf).symm⟩
    · rw [if_neg hth] at hf
      cases hf
  · rintro ⟨kp, hmem, hth, rfl⟩
    exact ⟨kp, hmem, by rw [if_pos hth]⟩

theorem charListLt_asymm :
    ∀ a b : List Char, charListLt a b = true → charListLt b a = false := by
  intro a
  induction a with
  | nil =>
      intro b h
      cases b with
      | nil => simp [charListLt] at h
      | cons d ds => simp [charListLt]
  | cons c cs ih =>
      intro b h
      cases b with
      | nil => simp [charListLt] at h
      | cons d ds =>
          by_cases hcd : c < d
          · have hdc : ¬ d < c := fun hh => absurd hcd (lt_asymm hh)
            simp [charListLt, hdc, hcd]
          · by_cases hdc : d < c
            · simp [charListLt, hcd, hdc] at h
            · simp only [charListLt, if_neg hcd, if_neg hdc] at h
              simp [charListLt, hcd, hdc, ih ds h]

theorem charListLt_trans :
    ∀ a b c : List Char, charListLt a b = true → charListLt b c = true →
      charListLt a c = true := by
  intro a
  induction a with
  | nil =>
      intro b c hab hbc
      cases b with
      | nil => simp [charListLt] at hab
      | cons d ds =>
          cases c with
          | nil => simp [charListLt] at hbc
          | cons e es => simp [charListLt]
  | cons x xs ih =>
      intro b c hab hbc
      cases b with
      | nil => simp [charListLt] at hab
      | cons y ys =>
          cases c with
          | nil => simp [charListLt] at hbc
          | cons z zs =>
              by_cases hxy : x < y
              · by_cases hyz : y < z
                · have hxz : x < z := lt_trans hxy hyz
                  simp [charListLt, hxz]
                · by_cases hzy : z < y
                  · simp [charListLt, hyz, hzy] at hbc
                  · have hyz' : y = z := le_antisymm (le_of_not_lt hzy) (le_of_not_lt hyz)
                    subst hyz'
                    simp [charListLt, hxy]
              · by_cases hyx : y < x
                · simp [charListLt, hxy, hyx] at hab
                · have hxy' : x = y := le_antisymm (le_of_not_lt hyx) (le_of_not_lt hxy)
                  subst hxy'
                  by_cases hyz : x < z
                  · simp [charListLt, hyz]
                  · by_cases hzy : z < x
                    · simp [charListLt, hyz, hzy] at hbc
                    · simp only [charListLt, if_neg hxy, if_neg hyz, if_neg hzy] at *
                      exact ih ys zs hab hbc

theorem pairwise_insertDesc (x : OnlineRec) (l : List OnlineRec)
    (hl : l.Pairwise (fun a b => pyStrLt a.lastHeard b.lastHeard = false)) :
    (insertDesc x l).Pairwise
      (fun a b => pyStrLt a.lastHeard b.lastHeard = false) := by
  induction l with
  | nil => simp [insertDesc]
  | cons y ys ih =>
      rw [List.pairwise_cons] at hl
      by_cases h : pyStrLt y.lastHeard x.lastHeard
      · simp only [insertDesc, if_pos h]
        refine List.Pairwise.cons ?_ (List.Pairwise.cons hl.1 hl.2)
        intro z hz
        rcases List.mem_cons.mp hz with rfl | hz
        · exact charListLt_asymm _ _ h
        · have hyz : pyStrLt y.lastHeard z.lastHeard = false := hl.1 z hz
          by_cases hxz : pyStrLt x.lastHeard z.lastHeard
          · have : pyStrLt y.lastHeard z.lastHeard = true :=
              charListLt_trans _ _ _ h hxz
            rw [this] at hyz
            cases hyz
          · simpa using hxz
      · simp only [insertDesc, if_neg h]
        refine List.Pairwise.cons ?_ (ih hl.2)
        intro z hz
        rcases (mem_insertDesc z x ys).mp hz with rfl | hz
        · simpa using h
        · exact hl.1 z hz

theorem pairwise_sortDesc_fold (xs : List OnlineRec) :
    ∀ acc : List OnlineRec,
      acc.Pairwise (fun a b => pyStrLt a.lastHeard b.lastHeard = false) →
      (xs.foldl (fun acc x => insertDesc x acc) acc).Pairwise
        (fun a b => pyStrLt a.lastHeard b.lastHeard = false) := by
  induction xs with
  | nil => intro acc h; exact h
  | cons x xs ih =>
      intro acc h
      exact ih _ (pairwise_insertDesc x acc h)

/-- C5 (amended): the classifier output is ordered descending by the
formatted "HH:MM" `lastHeard` display string (stable), not by the raw
epoch timestamp. -/
theorem online_nodes_sorted_by_formatted_time
    (nodes : List (Nat × NodeProfile)) (now : Int) :
    (get_online_nodes nodes now).Pairwise
      (fun a b => pyStrLt a.lastHeard b.lastHeard = false) :=
  pairwise_sortDesc_fold _ [] (List.Pairwise.nil)

/-- The ordering property claimed for the classifier: descending by the raw
last-heard timestamps looked up through the record ids. -/
def sorted_by_raw_claim : Prop :=
  ∀ (nodes : List (Nat × NodeProfile)) (now : Int),
    (get_online_nodes nodes now).Pairwise
      (fun a b =>
        ((dictGet b.id nodes).map (·.lastHeard)).getD 0 ≤
        ((dictGet a.id nodes).map (·.lastHeard)).getD 0)

/-- Counterexample to C5 as stated: two nodes heard across midnight, node 1
at epoch 86100 (23:55) and node 2 at epoch 86700 (00:05 the next day), both
online at `now = 86800`; the output lists node 1 first although its raw
timestamp is smaller. -/
theorem online_nodes_not_sorted_by_raw : ¬ sorted_by_raw_claim := by
  intro h
  have hc := h
    [(1, ⟨1, "Unknown", "UNK", 86100, 0, none, none⟩),
     (2, ⟨2, "Unknown", "UNK", 86700, 0, none, none⟩)] 86800
  revert hc
  decide

/-! ## Claim C6: publish returns a boolean, true exactly on 200/201 -/

/-- C6: `send_to_byos` is a total function into `Bool` (the Python function
catches every exception and always returns a boolean), and it returns `true`
exactly when the POST produced a response with status 200 or 201; any other
status and any raised network/timeout error yields `false`. -/
theorem send_to_byos_true_iff_2xx (r : PostResult) :
    send_to_byos r = true ↔
      ∃ body, r = .response 200 body ∨ r = .response 201 body := by
  cases r with
  | response s b =>
      simp only [send_to_byos, decide_eq_true_eq]
      constructor
      · rintro (rfl | rfl)
        · exact ⟨b, Or.inl rfl⟩
        · exact ⟨b, Or.inr rfl⟩
      · rintro ⟨body, h | h⟩ <;> cases h <;> simp
  | failure m => simp [send_to_byos]

/-! ## Claim C7: five failed connects end the loop, success resets -/

theorem run_update_loop_fatal (s : LoopState) (h : s.fatal = true) :
    ∀ l : List Bool, run_update_loop s l = (s, 0) := by
  intro l
  induction l with
  | nil => rfl
  | cons ok l ih =>
      have hstep : loop_step s ok = s := by simp [loop_step, h]
      have hc : connect_calls s = 0 := by simp [connect_calls, h]
      simp [run_update_loop, hstep, hc, ih]

/-- C7: from the initial loop state, five consecutive failed `connect()`
outcomes make exactly 5 connect calls — whatever would come next, no 6th call
happens — and leave the loop in the fatal (terminated) state; moreover any
successful connect from a live disconnected state resets the retry counter
to zero. -/
theorem reconnect_gives_up_after_five (rest : List Bool) :
    (run_update_loop loopInit (List.replicate 5 false ++ rest)).2 = 5 ∧
    (run_update_loop loopInit (List.replicate 5 false ++ rest)).1.fatal = true ∧
    (∀ s : LoopState, ¬ s.fatal → ¬ s.connected →
      (loop_step s true).reconnect_attempts = 0) := by
  have hrepl : List.replicate 5 false ++ rest =
      false :: false :: false :: false :: false :: rest := rfl
  have hfatal :=
    run_update_loop_fatal ⟨5, false, true⟩ rfl rest
  refine ⟨?_, ?_, ?_⟩
  · rw [hrepl]
    simp [run_update_loop, loop_step, connect_calls, loopInit,
      MAX_RECONNECT_ATTEMPTS, hfatal]
  · rw [hrepl]
    simp [run_update_loop, loop_step, connect_calls, loopInit,
      MAX_RECONNECT_ATTEMPTS, hfatal]
  · intro s h1 h2
    simp [loop_step, h1, h2]

/-- Witness for C7: a successful connect at three prior failures resets the
counter to zero. -/
theorem reconnect_gives_up_after_five_witness :
    (loop_step ⟨3, false, false⟩ true).reconnect_attempts = 0 :=
  (reconnect_gives_up_after_five []).2.2 ⟨3, false, false⟩ (by decide) (by decide)

/-! ## Claim C8: channel refresh merges instead of replacing -/

theorem dictGet_eq_none_of_not_mem_keys {κ α : Type} [DecidableEq κ] {k : κ}
    {d : List (κ × α)} (h : k ∉ d.map Prod.fst) : dictGet k d = none := by
  induction d with
  | nil => rfl
  | cons kv rest ih =>
      simp only [List.map_cons, List.mem_cons] at h
      push_neg at h
      simp [dictGet, Ne.symm h.1, ih h.2]

theorem dictGet_of_mem_of_keys_nodup {κ α : Type} [DecidableEq κ] {k : κ}
    {v : α} :
    ∀ {d : List (κ × α)}, (d.map Prod.fst).Nodup → (k, v) ∈ d →
      dictGet k d = some v := by
  intro d
  induction d with
  | nil => intro _ h; cases h
  | cons kv rest ih =>
      intro hd h
      simp only [List.map_cons, List.nodup_cons] at hd
      rcases List.mem_cons.mp h with rfl | hmem
      · simp [dictGet]
      · have hk : kv.1 ≠ k := by
          rintro rfl
          exact hd.1 (List.mem_map.mpr ⟨(kv.1, v), hmem, rfl⟩)
        obtain ⟨k', v'⟩ := kv
        simp only [dictGet, if_neg hk]
        exact ih hd.2 hmem

theorem keys_collect_ge (cs : List ChannelReport) :
    ∀ i k, k ∈ (collect_channels_from i cs).map Prod.fst → i ≤ k := by
  induction cs with
  | nil => intro i k h; cases h
  | cons c cs ih =>
      intro i k h
      unfold collect_channels_from at h
      cases hk : kept_channel i c with
      | some ch =>
          rw [hk] at h
          rcases List.mem_cons.mp h with rfl | h
          · exact le_refl k
          · exact Nat.le_of_succ_le (ih (i + 1) k h)
      | none =>
          rw [hk] at h
          exact Nat.le_of_succ_le (ih (i + 1) k h)

theorem keys_collect_nodup (cs : List ChannelReport) :
    ∀ i, ((collect_channels_from i cs).map Prod.fst).Nodup := by
  induction cs with
  | nil => intro i; simp [collect_channels_from]
  | cons c cs ih =>
      intro i
      unfold collect_channels_from
      cases hk : kept_channel i c with
      | some ch =>
          simp only [List.map_cons, List.nodup_cons]
          refine ⟨?_, ih (i + 1)⟩
          intro hmem
          have := keys_collect_ge cs (i + 1) i hmem
          omega
      | none => exact ih (i + 1)

theorem dictGet_foldl_dictInsert {κ α : Type} [DecidableEq κ]
    (l : List (κ × α)) :
    ∀ (acc : List (κ × α)) (i : κ), (l.map Prod.fst).Nodup →
      dictGet i (l.foldl (fun acc kv => dictInsert kv.1 kv.2 acc) acc) =
        match dictGet i l with
        | some v => some v
        | none => dictGet i acc := by
  induction l with
  | nil => intro acc i _; rfl
  | cons kv l ih =>
      intro acc i hnd
      obtain ⟨k, v⟩ := kv
      simp only [List.map_cons, List.nodup_cons] at hnd
      rw [List.foldl_cons, ih _ _ hnd.2]
      by_cases hik : i = k
      · subst hik
        have hnone : dictGet i l = none := dictGet_eq_none_of_not_mem_keys hnd.1
        simp [dictGet, hnone, dictGet_dictInsert_self]
      · simp [dictGet, Ne.symm hik, dictGet_dictInsert_ne _ _ hik]

theorem dictInsert_ne_nil {κ α : Type} [DecidableEq κ] (k : κ) (v : α)
    (d : List (κ × α)) : dictInsert k v d ≠ [] := by
  cases d with
  | nil => simp [dictInsert]
  | cons kv rest =>
      obtain ⟨k', v'⟩ := kv
      by_cases h : k' = k <;> simp [dictInsert, h]

theorem foldl_dictInsert_ne_nil {κ α : Type} [DecidableEq κ]
    (l : List (κ × α)) :
    ∀ acc : List (κ × α), acc ≠ [] ∨ l ≠ [] →
      l.foldl (fun acc kv => dictInsert kv.1 kv.2 acc) acc ≠ [] := by
  induction l with
  | nil =>
      intro acc h
      exact h.resolve_right fun hc => hc rfl
  | cons kv l ih =>
      intro acc _
      rw [List.foldl_cons]
      exact ih _ (Or.inl (dictInsert_ne_nil _ _ _))

/-- C8 (amended): a channel refresh merges into the registry by index — each
reported channel with a non-blank name overwrites its index, prior entries at
other indices persist — it does not replace the registry wholesale; when zero
channels are kept the synthetic default is written at index 0 (other prior
entries again persisting), and the registry is never empty afterwards. -/
theorem channel_refresh_merges (report : Option (List ChannelReport))
    (prior : List (Nat × Channel)) :
    (∀ i ch, (i, ch) ∈ collect_channels report →
      dictGet i (update_channel_data report prior) = some ch) ∧
    (∀ i : Nat, i ∉ (collect_channels report).map Prod.fst →
      ¬(collect_channels report = [] ∧ i = 0) →
      dictGet i (update_channel_data report prior) = dictGet i prior) ∧
    (collect_channels report = [] →
      dictGet 0 (update_channel_data report prior) = some defaultChannel) ∧
    update_channel_data report prior ≠ [] := by
  have hnd : ((collect_channels report).map Prod.fst).Nodup := by
    cases report with
    | none => simp [collect_channels]
    | some rs => exact keys_collect_nodup rs 0
  refine ⟨?_, ?_, ?_, ?_⟩
  · intro i ch hmem
    have hne : ¬ (collect_channels report).isEmpty := by
      cases hcoll : collect_channels report with
      | nil => rw [hcoll] at hmem; cases hmem
      | cons a l => simp
    unfold update_channel_data
    rw [if_neg hne, dictGet_foldl_dictInsert _ _ _ hnd,
      dictGet_of_mem_of_keys_nodup hnd hmem]
  · intro i hni hne
    have hnone : dictGet i (collect_channels report) = none :=
      dictGet_eq_none_of_not_mem_keys hni
    unfold update_channel_data
    by_cases hemp : (collect_channels report).isEmpty
    · have hi0 : i ≠ 0 := fun h0 =>
        hne ⟨List.isEmpty_iff.mp hemp, h0⟩
      rw [if_pos hemp, dictGet_dictInsert_ne _ _ hi0,
        dictGet_foldl_dictInsert _ _ _ hnd, hnone]
    · rw [if_neg hemp, dictGet_foldl_dictInsert _ _ _ hnd, hnone]
  · intro hcoll
    unfold update_channel_data
    rw [hcoll]
    simp [dictGet_dictInsert_self]
  · unfold update_channel_data
    by_cases hemp : (collect_channels report).isEmpty
    · rw [if_pos hemp]
      exact dictInsert_ne_nil _ _ _
    · rw [if_neg hemp]
      apply foldl_dictInsert_ne_nil
      right
      intro hc
      rw [hc] at hemp
      exact hemp rfl

/-- The lifecycle claimed for the channel registry: wholesale replacement by
the kept reported channels, or by the single synthetic default. -/
def channels_replaced_wholesale_claim : Prop :=
  ∀ (report : Option (List ChannelReport)) (prior : List (Nat × Channel)),
    update_channel_data report prior =
      if collect_channels report = [] then [(0, defaultChannel)]
      else collect_channels report

/-- Counterexample to C8 as stated: refreshing a registry that already holds
an entry at index 5 with a report of one channel (index 0, name "X") leaves
the stale index-5 entry in place — the registry is merged, not replaced. -/
theorem channel_refresh_not_wholesale : ¬ channels_replaced_wholesale_claim := by
  intro h
  have hc := h (some [⟨some ⟨some "X", 1⟩, none⟩]) [(5, defaultChannel)]
  revert hc
  decide

/-- Witness for C8 (amended): the reported channel lands at its index, the
stale prior entry persists, and an empty report writes the default. -/
theorem channel_refresh_merges_witness :
    dictGet 0 (update_channel_data (some [⟨some ⟨some "X", 1⟩, none⟩])
        [(5, defaultChannel)]) = some ⟨0, "X", true, "secondary"⟩ ∧
    dictGet 5 (update_channel_data (some [⟨some ⟨some "X", 1⟩, none⟩])
        [(5, defaultChannel)]) = dictGet 5 [(5, defaultChannel)] ∧
    dictGet 0 (update_channel_data none [(5, defaultChannel)]) =
      some defaultChannel := by
  refine ⟨?_, ?_, ?_⟩
  · exact (channel_refresh_merges _ _).1 0 _ (by decide)
  · exact (channel_refresh_merges _ _).2.1 5 (by decide) (by decide)
  · exact (channel_refresh_merges _ _).2.2.1 (by decide)

/-! ## Claim C9: snapshot display caps and untruncated statistics -/

/-- C9: the snapshot truncates online nodes to 12, recent messages to 10 and
channels to 6 — each the leading prefix of the corresponding full list —
while `network_stats.total_nodes` is the full registry size and
`network_stats.online_nodes` the untruncated online count. -/
theorem snapshot_display_caps (st : MeshState) (now : Int) (connected : Bool) :
    (prepare_display_data st now connected).online_nodes.length ≤ 12 ∧
    (prepare_display_data st now connected).recent_messages.length ≤ 10 ∧
    (prepare_display_data st now connected).channels.length ≤ 6 ∧
    (prepare_display_data st now connected).online_nodes =
      (get_online_nodes st.nodes now).take 12 ∧
    (prepare_display_data st now connected).recent_messages =
      (get_message_summary st).recent.take 10 ∧
    (prepare_display_data st now connected).channels =
      (st.channels.map (·.2)).take 6 ∧
    (prepare_display_data st now connected).network_stats.total_nodes =
      st.nodes.length ∧
    (prepare_display_data st now connected).network_stats.online_nodes =
      (get_online_nodes st.nodes now).length := by
  refine ⟨?_, ?_, ?_, rfl, rfl, rfl, rfl, rfl⟩
  · rw [show (prepare_display_data st now connected).online_nodes =
      (get_online_nodes st.nodes now).take 12 from rfl, List.length_take]
    exact Nat.min_le_left _ _
  · rw [show (prepare_display_data st now connected).recent_messages =
      (get_message_summary st).recent.take 10 from rfl, List.length_take]
    exact Nat.min_le_left _ _
  · rw [show (prepare_display_data st now connected).channels =
      (st.channels.map (·.2)).take 6 from rfl, List.length_take]
    exact Nat.min_le_left _ _

/-! ## Claim C10: total counter versus per-sender counters -/

/-- Sum of all per-sender counters (every key except the distinguished
"total" one). -/
def per_sender_sum (stats : List (String × Nat)) : Nat :=
  ((stats.filter fun kv => kv.1 ≠ "total").map Prod.snd).sum

theorem statGet_bump_self {κ : Type} [DecidableEq κ] (k : κ)
    (s : List (κ × Nat)) : statGet k (bump k s) = statGet k s + 1 := by
  induction s with
  | nil => simp [bump, statGet, dictGet]
  | cons kv rest ih =>
      obtain ⟨k', v⟩ := kv
      by_cases h : k' = k
      · subst h; simp [bump, statGet, dictGet]
      · have hb : bump k ((k', v) :: rest) = (k', v) :: bump k rest := by
          simp [bump, h]
        have h1 : ∀ l : List (κ × Nat), statGet k ((k', v) :: l) = statGet k l := by
          intro l; simp [statGet, dictGet, h]
        rw [hb, h1, h1, ih]

theorem statGet_bump_ne {κ : Type} [DecidableEq κ] {j k : κ} (h : j ≠ k)
    (s : List (κ × Nat)) : statGet j (bump k s) = statGet j s := by
  induction s with
  | nil => simp [bump, statGet, dictGet, Ne.symm h]
  | cons kv rest ih =>
      obtain ⟨k', v⟩ := kv
      by_cases hk : k' = k
      · subst hk
        have hb : bump k' ((k', v) :: rest) = (k', v + 1) :: rest := by
          simp [bump]
        have h1 : ∀ (w : Nat) (l : List (κ × Nat)),
            statGet j ((k', w) :: l) = statGet j l := by
          intro w l; simp [statGet, dictGet, Ne.symm h]
        rw [hb, h1, h1]
      · have hb : bump k ((k', v) :: rest) = (k', v) :: bump k rest := by
          simp [bump, hk]
        by_cases hj : k' = j
        · subst hj
          have h1 : ∀ l : List (κ × Nat), statGet k' ((k', v) :: l) = v := by
            intro l; simp [statGet, dictGet]
          rw [hb, h1, h1]
        · have h1 : ∀ l : List (κ × Nat),
              statGet j ((k', v) :: l) = statGet j l := by
            intro l; simp [statGet, dictGet, hj]
          rw [hb, h1, h1, ih]

theorem statGet_bump_le {κ : Type} [DecidableEq κ] (j k : κ)
    (s : List (κ × Nat)) : statGet j s ≤ statGet j (bump k s) := by
  by_cases h : j = k
  · subst h
    rw [statGet_bump_self]
    exact Nat.le_succ _
  · rw [statGet_bump_ne h]

theorem per_sender_sum_cons (kv : String × Nat) (l : List (String × Nat)) :
    per_sender_sum (kv :: l) =
      (if kv.1 = "total" then 0 else kv.2) + per_sender_sum l := by
  by_cases h : kv.1 = "total" <;> simp [per_sender_sum, List.filter_cons, h]

theorem per_sender_sum_bump_ne (k : String) (h : k ≠ "total")
    (s : List (String × Nat)) :
    per_sender_sum (bump k s) = per_sender_sum s + 1 := by
  induction s with
  | nil => simp [bump, per_sender_sum, h]
  | cons kv rest ih =>
      obtain ⟨k', v⟩ := kv
      by_cases hk : k' = k
      · subst hk
        have hb : bump k' ((k', v) :: rest) = (k', v + 1) :: rest := by
          simp [bump]
        rw [hb, per_sender_sum_cons, per_sender_sum_cons, if_neg h, if_neg h]
        omega
      · have hb : bump k ((k', v) :: rest) = (k', v) :: bump k rest := by
          simp [bump, hk]
        rw [hb, per_sender_sum_cons, per_sender_sum_cons, ih]
        omega

theorem per_sender_sum_bump_total (s : List (String × Nat)) :
    per_sender_sum (bump "total" s) = per_sender_sum s := by
  induction s with
  | nil => simp [bump, per_sender_sum]
  | cons kv rest ih =>
      obtain ⟨k', v⟩ := kv
      by_cases hk : k' = "total"
      · subst hk
        have hb : bump "total" (("total", v) :: rest) = ("total", v + 1) :: rest := by
          simp [bump]
        rw [hb, per_sender_sum_cons, per_sender_sum_cons]
        simp
      · have hb : bump "total" ((k', v) :: rest) = (k', v) :: bump "total" rest := by
          simp [bump, hk]
        rw [hb, per_sender_sum_cons, per_sender_sum_cons, ih]

theorem stats_invariant_fold (events : List (Int × Packet)) :
    ∀ st : MeshState, (∀ e ∈ events, sender_key e.2 ≠ "total") →
      statGet "total" st.message_stats = per_sender_sum st.message_stats →
      statGet "total" (process_packets st events).message_stats =
        per_sender_sum (process_packets st events).message_stats := by
  induction events with
  | nil => intro st _ h; exact h
  | cons e es ih =>
      intro st hall h
      have hfold : process_packets st (e :: es) =
          process_packets (on_receive e.1 st e.2) es := rfl
      rw [hfold]
      refine ih _ (fun x hx => hall x (List.mem_cons_of_mem e hx)) ?_
      have hsk : sender_key e.2 ≠ "total" := hall e (List.mem_cons_self e es)
      cases hr : retained_text e.2 with
      | none =>
          have : on_receive e.1 st e.2 = st := by
            unfold on_receive; rw [hr]
          rw [this]; exact h
      | some t =>
          have hst : (on_receive e.1 st e.2).message_stats =
              bump "total" (bump (sender_key e.2) st.message_stats) := by
            unfold on_receive; rw [hr]
          rw [hst, statGet_bump_self, per_sender_sum_bump_total,
            statGet_bump_ne (Ne.symm hsk), per_sender_sum_bump_ne _ hsk, h]

/-- C10 (amended): provided no processed packet's sender identity string is
the distinguished key "total", the total counter equals the sum of all
per-sender counters after any sequence of packet-received events from the
initial state; and independently, every counter is monotone along each
event. -/
theorem stats_total_eq_sum (events : List (Int × Packet))
    (h : ∀ e ∈ events, sender_key e.2 ≠ "total") :
    statGet "total" (process_packets initialState events).message_stats =
      per_sender_sum (process_packets initialState events).message_stats ∧
    (∀ (now : Int) (st : MeshState) (p : Packet) (k : String),
      statGet k st.message_stats ≤
        statGet k (on_receive now st p).message_stats) := by
  constructor
  · exact stats_invariant_fold events initialState h (by simp [initialState,
      per_sender_sum, statGet, dictGet])
  · intro now st p k
    cases hr : retained_text p with
    | none =>
        have : on_receive now st p = st := by
          unfold on_receive; rw [hr]
        rw [this]
    | some t =>
        have hst : (on_receive now st p).message_stats =
            bump "total" (bump (sender_key p) st.message_stats) := by
          unfold on_receive; rw [hr]
        rw [hst]
        exact le_trans (statGet_bump_le k (sender_key p) _)
          (statGet_bump_le k "total" _)

/-- The unconditional form of C10. -/
def stats_total_claim : Prop :=
  ∀ events : List (Int × Packet),
    statGet "total" (process_packets initialState events).message_stats =
      per_sender_sum (process_packets initialState events).message_stats

/-- Counterexample to C10 as stated: a single retained packet whose `fromId`
string is "total" bumps the total counter twice and no per-sender counter,
so the total (2) differs from the per-sender sum (0). -/
theorem stats_total_not_unconditional : ¬ stats_total_claim := by
  intro h
  have hc := h
    [(0, ⟨.present (some "hi"), .absent, some "total", none, none, some 5, none⟩)]
  revert hc
  decide

/-- Witness for C10 (amended) at one packet from sender "alice". -/
theorem stats_total_eq_sum_witness :
    statGet "total" (process_packets initialState
        [(0, ⟨.present (some "hi"), .absent, some "alice", none, none,
          some 5, none⟩)]).message_stats =
      per_sender_sum (process_packets initialState
        [(0, ⟨.present (some "hi"), .absent, some "alice", none, none,
          some 5, none⟩)]).message_stats :=
  (stats_total_eq_sum
    [(0, ⟨.present (some "hi"), .absent, some "alice", none, none,
      some 5, none⟩)] (by decide)).1

end MeshSimple
